import Mathlib

/-!
Verification development for the options-trading signal core:
signal scoring (momentum + implied-volatility strategy), risk-based
position sizing, feature computation and the backtest engine.

Numeric values are modelled over `ℚ` (the source uses IEEE floats; the
rational model captures the exact arithmetic the code performs).  A float
`NaN` — used by the source as an "unknown" marker for the mean
implied-volatility change — is modelled as `Option ℚ` with `none` for
`NaN`; every comparison against `none` is `false`, exactly as every
float comparison against `NaN` is `false`.  Optional / missing / malformed
dictionary entries are modelled as `Option` fields holding the coerced
numeric value (`none` when the key is absent or its value non-numeric).
-/

namespace TradingAI

/-- Option trade direction; the source represents this as the strings
"CALL", "PUT" and "NONE". -/
inductive Direction where
  | CALL
  | PUT
  | NONE
deriving DecidableEq, Inhabited

/-- A best-representative option quote record: the `bid` / `ask` keys of
the quote mapping (each `none` when the key is absent or non-numeric).
The `bid_price` / `ask_price` aliases of the source are folded into the
same fields. -/
structure Quote where
  bid : Option ℚ := none
  ask : Option ℚ := none
deriving DecidableEq, Inhabited

/-- The `option_quote` mapping with its `CALL` / `PUT` keys (the lower-case
aliases of the source are folded in).  An absent entry is `none`. -/
structure OptionQuotes where
  call : Option Quote := none
  put : Option Quote := none
deriving DecidableEq, Inhabited

/-- A headline record with optional `title` / `description` strings. -/
structure NewsItem where
  title : Option String := none
  description : Option String := none
deriving DecidableEq, Inhabited

/-- Precomputed feature mapping, restricted to the two momentum keys the
strategy reads under its default configuration (`momentum_15`,
`momentum_60`).  A `none` entry models an absent or non-numeric value. -/
structure Features where
  momentum_15 : Option ℚ := none
  momentum_60 : Option ℚ := none
deriving DecidableEq, Inhabited

/-- One option-chain leg / option-metrics payload.  Numeric fields hold the
value `_coerce_float` would produce (`none` when absent or non-coercible);
`vega` and `delta` are the entries of the nested `greeks` mapping;
`bid_size` / `ask_size` come from `latest_quote` and `trade_size` from
`latest_trade`. `contract_type` is `str(payload.get("contract_type") or "")`. -/
structure Leg where
  contract_type : String := ""
  symbol : Option String := none
  implied_volatility : Option ℚ := none
  iv_change : Option ℚ := none
  vega : Option ℚ := none
  delta : Option ℚ := none
  open_interest : Option ℚ := none
  bid_size : Option ℚ := none
  ask_size : Option ℚ := none
  trade_size : Option ℚ := none
deriving DecidableEq, Inhabited

/-- Diagnostic metadata attached to a signal.  Every key is optional so the
structure can also model the empty metadata other strategies produce; the
backtest engine only ever reads `delta` and `delta_bias`. -/
structure SignalMetadata where
  momentum : Option ℚ := none
  avg_iv : Option ℚ := none
  iv_change : Option ℚ := none
  news_bias : Option ℚ := none
  flow_ratio : Option ℚ := none
  delta_bias : Option ℚ := none
  delta : Option ℚ := none
deriving DecidableEq, Inhabited

/-- `TradingSignal` from `strategies/base.py`. -/
structure TradingSignal where
  ticker : String
  direction : Direction
  confidence : ℚ
  entry_price : Option ℚ := none
  target_price : Option ℚ := none
  stop_price : Option ℚ := none
  metadata : Option SignalMetadata := none
deriving DecidableEq, Inhabited

/-- `StrategyContext`: exactly the fields the dataclass in
`strategies/base.py` declares — `ticker`, `underlying_bars`,
`option_chain`, `option_quote`, `news_items`, `features` and nothing else;
in particular there is no `option_metrics` field, although
`MomentumIVStrategy.generate_signal` reads one (see `generate_signal`
below).  `underlying_bars` is modelled by its `close` column (the only one
the core reads).  `option_chain` is the sequence of leg payloads the code
iterates over (a `dict` source is iterated via `.values()`, a `list`
directly, so both are a `List Leg` here; an absent / empty container is
`[]`, which is exactly the source's falsiness test). -/
structure StrategyContext where
  ticker : String
  underlying_bars : List ℚ := []
  option_chain : List Leg := []
  option_quote : Option OptionQuotes := none
  news_items : List NewsItem := []
  features : Option Features := none
deriving DecidableEq, Inhabited

/-- `MomentumIVConfig` from `strategies/momentum_iv.py` (the two feature-key
strings are fixed to their defaults in this model). -/
structure MomentumIVConfig where
  lookback_minutes : ℕ := 60
  momentum_threshold : ℚ := 0.0015
  iv_squeeze_threshold : ℚ := -0.05
  max_confidence : ℚ := 0.9
  baseline_confidence : ℚ := 0.35
  option_flow_threshold : ℚ := 0.2
  momentum_weight : ℚ := 0.4
  iv_weight : ℚ := 0.25
  news_weight : ℚ := 0.2
  option_flow_weight : ℚ := 0.15
deriving DecidableEq, Inhabited

/-- The default strategy configuration. -/
def defaultConfig : MomentumIVConfig := {}

/-- `MomentumIVStrategy._compute_momentum`: percent change of close over the
trailing `lookback_minutes` window; `0` for an empty frame or a window of
fewer than two bars.  When the window's first close is `0` the source's
float division yields `±inf` (or `NaN` for `0/0`) while this exact-rational
model yields `0` by the `x / 0 = 0` convention; theorems that hypothesize
on this momentum being below the threshold therefore restrict the bars to
positive closes. -/
def compute_momentum (cfg : MomentumIVConfig) (bars : List ℚ) : ℚ :=
  if bars.isEmpty then 0
  else
    let window := bars.drop (bars.length - cfg.lookback_minutes)
    if window.length < 2 then 0
    else (window.getLast?.getD 0 - window.head?.getD 0) / window.head?.getD 0

/-- `MomentumIVStrategy._momentum_from_features`: first non-zero numeric
value under the `momentum_15` key, then the `momentum_60` key; `0` when the
mapping is absent/empty or no usable value exists.  (The source skips a
zero value because of its `if momentum:` truthiness test.) -/
def momentum_from_features (features : Option Features) : ℚ :=
  match features with
  | none => 0
  | some f =>
    match f.momentum_15 with
    | some v => if v ≠ 0 then v else (match f.momentum_60 with
        | some w => if w ≠ 0 then w else 0
        | none => 0)
    | none =>
      match f.momentum_60 with
      | some w => if w ≠ 0 then w else 0
      | none => 0

/-- `MomentumIVStrategy._quote_mid`: mid of bid/ask; one-sided when only one
side is present; `none` when the quote is absent or has neither side.  The
source's `get("bid") or get("bid_price")` makes a zero bid falsy, so a
present zero value behaves like an absent one here. -/
def quote_mid (quote : Option Quote) : Option ℚ :=
  match quote with
  | none => none
  | some q =>
    let bid := match q.bid with | some b => if b ≠ 0 then some b else none | none => none
    let ask := match q.ask with | some a => if a ≠ 0 then some a else none | none => none
    match bid, ask with
    | none, none => none
    | none, some a => some a
    | some b, none => some b
    | some b, some a => some ((b + a) / 2)

/-- `MomentumIVStrategy._momentum_from_quotes`:
`(call_mid - put_mid) / (call_mid + put_mid)`, `0` when either mid is
missing or the total is non-positive. -/
def momentum_from_quotes (option_quote : Option OptionQuotes) : ℚ :=
  match option_quote with
  | none => 0
  | some oq =>
    match quote_mid oq.call, quote_mid oq.put with
    | some c, some p => if c + p ≤ 0 then 0 else (c - p) / (c + p)
    | _, _ => 0

/-- Upper-casing of a string, character by character (`str.upper()`). -/
def str_upper (s : String) : String := String.mk (s.data.map Char.toUpper)

/-- Lower-casing of a string, character by character (`str.lower()`). -/
def str_lower (s : String) : String := String.mk (s.data.map Char.toLower)

/-- Mean of a list of rationals, `none` for the empty list (the source's
`np.nanmean` of an empty collection is `NaN`). -/
def rat_mean (l : List ℚ) : Option ℚ :=
  if l.isEmpty then none else some (l.sum / l.length)

/-- `MomentumIVStrategy._extract_iv_metrics`: `(avg_iv, iv_change)`.  With a
falsy option chain both are `NaN` (`none`) — the metrics mapping is not even
consulted.  Otherwise `avg_iv` is the mean of the `implied_volatility`
entries of chain legs and metrics payloads, and `iv_change` is the mean of
the chain legs' `iv_change` entries together with the metrics payloads'
`vega` greeks (the source's explicit proxy). -/
def extract_iv_metrics (chain metrics : List Leg) : Option ℚ × Option ℚ :=
  if chain.isEmpty then (none, none)
  else
    let ivs := chain.filterMap (·.implied_volatility) ++ metrics.filterMap (·.implied_volatility)
    let ivcs := chain.filterMap (·.iv_change) ++ metrics.filterMap (·.vega)
    (rat_mean ivs, rat_mean ivcs)

/-- `MomentumIVStrategy._infer_contract_type`: read the C/P flag at offset
`-9` of an OCC-style symbol of length at least 15. -/
def infer_contract_type (symbol : Option String) : Option String :=
  match symbol with
  | none => none
  | some s =>
    if s.length < 15 then none
    else
      let c := (s.toList.getD (s.length - 9) ' ').toUpper
      if c = 'C' then some "CALL" else if c = 'P' then some "PUT" else none

/-- `MomentumIVStrategy._estimate_liquidity`: the largest of bid size, ask
size and last-trade size, `none` when that maximum is not positive. -/
def estimate_liquidity (leg : Leg) : Option ℚ :=
  let estimate := max (leg.bid_size.getD 0) (max (leg.ask_size.getD 0) (leg.trade_size.getD 0))
  if 0 < estimate then some estimate else none

/-- Resolved contract type of a payload: the upper-cased `contract_type`
string, falling back to symbol inference when it is empty. -/
def leg_contract_type (leg : Leg) : String :=
  let ct := str_upper leg.contract_type
  if ct = "" then (infer_contract_type leg.symbol).getD "" else ct

/-- Accumulated flow weights (the local accumulators of `_option_flow_metrics`). -/
structure FlowTotals where
  call_oi : ℚ := 0
  put_oi : ℚ := 0
  call_delta : ℚ := 0
  put_delta : ℚ := 0
deriving DecidableEq, Inhabited

/-- One iteration of the `_ingest` loop body of
`MomentumIVStrategy._option_flow_metrics`: resolve the contract type, pick
the weight (open interest when positive, else estimated liquidity, else
`|delta|`) and accumulate weight and delta·weight on the matching side. -/
def ingest_leg (t : FlowTotals) (leg : Leg) : FlowTotals :=
  let ct := leg_contract_type leg
  if ct ≠ "CALL" ∧ ct ≠ "PUT" then t
  else
    let oi : Option ℚ :=
      match leg.open_interest with
      | some v => if v < 0 then estimate_liquidity leg else some v
      | none => estimate_liquidity leg
    let delta := leg.delta.getD 0
    let weight : ℚ :=
      match oi with
      | some v => if 0 < v then v else |delta|
      | none => |delta|
    if weight ≤ 0 then t
    else if ct = "CALL" then
      { t with call_oi := t.call_oi + weight, call_delta := t.call_delta + delta * weight }
    else
      { t with put_oi := t.put_oi + weight, put_delta := t.put_delta + delta * weight }

/-- `_ingest(source)`: fold the loop body over a leg sequence. -/
def ingest (t : FlowTotals) (legs : List Leg) : FlowTotals :=
  legs.foldl ingest_leg t

/-- Result record of `_option_flow_metrics`. -/
structure FlowMetrics where
  call_open_interest : ℚ
  put_open_interest : ℚ
  flow_ratio : ℚ
  delta_bias : ℚ
deriving DecidableEq, Inhabited

/-- `MomentumIVStrategy._option_flow_metrics`: ingest the metrics payloads,
fall back to the chain when nothing was ingested, then form the flow ratio
`(call - put) / total` and the weighted delta bias, each clamped to
`[-1, 1]` (`0` when the total weight is not positive). -/
def option_flow_metrics (metrics chain : List Leg) : FlowMetrics :=
  let t1 := ingest {} metrics
  let t := if t1.call_oi + t1.put_oi = 0 then ingest t1 chain else t1
  let total := t.call_oi + t.put_oi
  let fr := if 0 < total then (t.call_oi - t.put_oi) / total else 0
  let ad := if 0 < total then (t.call_delta + t.put_delta) / total else 0
  { call_open_interest := t.call_oi
    put_open_interest := t.put_oi
    flow_ratio := max (-1) (min fr 1)
    delta_bias := max (-1) (min ad 1) }

/-- Does `hay` start with `needle`? -/
def starts_with : List Char → List Char → Bool
  | [], _ => true
  | _ :: _, [] => false
  | c :: cs, h :: hs => c = h && starts_with cs hs

/-- Substring occurrence test on character lists. -/
def contains_sub : List Char → List Char → Bool
  | needle, [] => starts_with needle []
  | needle, h :: hs => starts_with needle (h :: hs) || contains_sub needle hs

/-- Keyword containment test on strings (`kw in summary`). -/
def contains_kw (s kw : String) : Bool :=
  contains_sub kw.data s.data

/-- Lower-cased summary of an article: description, else title, else `""`
(an empty string is falsy and falls through, as in the source). -/
def summary_of (a : NewsItem) : String :=
  let d := a.description.getD ""
  let t := a.title.getD ""
  str_lower (if d ≠ "" then d else t)

/-- Positive-keyword test of `MomentumIVStrategy._news_bias`. -/
def is_positive (s : String) : Bool :=
  contains_kw s "beats" || contains_kw s "surge" || contains_kw s "upgrade" ||
    contains_kw s "positive"

/-- Negative-keyword test of `MomentumIVStrategy._news_bias`. -/
def is_negative (s : String) : Bool :=
  contains_kw s "misses" || contains_kw s "downgrade" || contains_kw s "negative" ||
    contains_kw s "lawsuit"

/-- `MomentumIVStrategy._news_bias`: `1/2` with no articles or no keyword
matches, else the clamped share of positively-matching articles. -/
def news_bias (items : List NewsItem) : ℚ :=
  if items.isEmpty then 1/2
  else
    let positive := (items.filter (fun a => is_positive (summary_of a))).length
    let negative := (items.filter (fun a => is_negative (summary_of a))).length
    let total := positive + negative
    if total = 0 then 1/2
    else max 0 (min ((positive : ℚ) / (total : ℚ)) 1)

/-- The momentum threshold after the NaN relaxation: halved when the mean IV
change is `NaN` (`none`). -/
def effective_threshold (cfg : MomentumIVConfig) (iv_change : Option ℚ) : ℚ :=
  if iv_change.isNone then cfg.momentum_threshold * 0.5 else cfg.momentum_threshold

/-- Float comparison `iv ≤ t`, false on `NaN`. -/
def iv_le (iv : Option ℚ) (t : ℚ) : Bool :=
  match iv with
  | none => false
  | some v => decide (v ≤ t)

/-- Float comparison `iv ≥ t`, false on `NaN`. -/
def iv_ge (iv : Option ℚ) (t : ℚ) : Bool :=
  match iv with
  | none => false
  | some v => decide (t ≤ v)

/-- `MomentumIVStrategy._determine_direction`, branch for branch. -/
def determine_direction (cfg : MomentumIVConfig) (momentum : ℚ) (iv_change : Option ℚ)
    (flow_bias : ℚ) : Direction :=
  let eff := effective_threshold cfg iv_change
  if decide (eff < momentum) && iv_le iv_change cfg.iv_squeeze_threshold then .CALL
  else if decide (momentum < -eff) && iv_ge iv_change (-cfg.iv_squeeze_threshold) then .PUT
  else if eff < momentum then .CALL
  else if momentum < -eff then .PUT
  else if cfg.option_flow_threshold ≤ |flow_bias| then
    (if 0 < flow_bias then .CALL else .PUT)
  else .NONE

/-- `MomentumIVStrategy._confidence_score`: weighted mean of the clamped
sub-scores, floored at `baseline/max` then rescaled and capped. -/
def confidence_score (cfg : MomentumIVConfig) (momentum : ℚ) (iv_change : Option ℚ)
    (nb flow_bias : ℚ) : ℚ :=
  let momentum_score := min (|momentum| / (cfg.momentum_threshold * 2)) 1
  let iv_score := match iv_change with | none => 0 | some v => min (|v| / 0.1) 1
  let flow_score := min |flow_bias| 1
  let ws := cfg.momentum_weight + cfg.iv_weight + cfg.news_weight + cfg.option_flow_weight
  let total_weight := if ws = 0 then 1 else ws
  let raw := (cfg.momentum_weight * momentum_score + cfg.iv_weight * iv_score +
    cfg.news_weight * nb + cfg.option_flow_weight * flow_score) / total_weight
  let raw2 := max (cfg.baseline_confidence / cfg.max_confidence) raw
  max 0 (min (raw2 * cfg.max_confidence) cfg.max_confidence)

/-- The momentum `generate_signal` ends up using: bar momentum, then the
feature fallback, then the quote-spread fallback, each consulted only while
the current magnitude is below the threshold and adopted only when its own
magnitude is strictly larger. -/
def signal_momentum (cfg : MomentumIVConfig) (ctx : StrategyContext) : ℚ :=
  let m0 := compute_momentum cfg ctx.underlying_bars
  let m1 :=
    if |m0| < cfg.momentum_threshold then
      (if |m0| < |momentum_from_features ctx.features| then momentum_from_features ctx.features
       else m0)
    else m0
  if |m1| < cfg.momentum_threshold then
    (if |m1| < |momentum_from_quotes ctx.option_quote| then momentum_from_quotes ctx.option_quote
     else m1)
  else m1

/-- The effective flow bias: the flow ratio, replaced by the delta bias when
the latter has strictly larger magnitude. -/
def effective_flow_bias (fm : FlowMetrics) : ℚ :=
  if |fm.flow_ratio| < |fm.delta_bias| then fm.delta_bias else fm.flow_ratio

/-- The exception `MomentumIVStrategy.generate_signal` raises on every
`StrategyContext` instance: the method reads `context.option_metrics`
(momentum_iv.py line 274), an attribute the `StrategyContext` dataclass of
`strategies/base.py` does not declare. -/
def attributeErrorMsg : String :=
  "AttributeError: StrategyContext object has no attribute option_metrics"

/-- `MomentumIVStrategy.generate_signal`.  Lines 264-273 compute the
momentum with its fallback chain (`signal_momentum`), a pure computation;
line 274 then evaluates `context.option_metrics`, which no
`StrategyContext` instance carries, so the call raises `AttributeError`
before any IV/flow metric, direction or confidence is produced.  The
fallible result is modelled with `Except`: every call returns the error. -/
def generate_signal (cfg : MomentumIVConfig) (ctx : StrategyContext) :
    Except String TradingSignal :=
  let _momentum := signal_momentum cfg ctx
  Except.error attributeErrorMsg

/-! ## Risk manager (`risk/manager.py`) -/

/-- `PositionSizingInput`. -/
structure PositionSizingInput where
  account_equity : ℚ
  trade_risk_fraction : ℚ
  contract_price : ℚ
  confidence : ℚ
  max_positions : ℤ := 1
deriving DecidableEq, Inhabited

/-- `RiskManager` construction parameters. -/
structure RiskManager where
  max_daily_loss_pct : ℚ := 0.05
  min_confidence : ℚ := 0.2
deriving DecidableEq, Inhabited

/-- Largest `k ≤ m` with `k * k ≤ n` (`0` when none).  Structural recursion,
so it evaluates inside the kernel. -/
def isqrt_aux : ℕ → ℕ → ℕ
  | 0, _ => 0
  | k + 1, n => if (k + 1) * (k + 1) ≤ n then k + 1 else isqrt_aux k n

/-- Integer square root `⌊√n⌋`. -/
def isqrt (n : ℕ) : ℕ :=
  isqrt_aux n n

/-- Exact `⌊√(max y 0)⌋` for a rational `y`, via the natural-number square
root: `⌊√(n/d)⌋ = ⌊√(n·d)⌋ / d`. -/
def rat_sqrt_floor (y : ℚ) : ℕ :=
  isqrt (y.num.toNat * y.den) / y.den

/-- Exact `⌈√(max y 0)⌉` for a rational `y` (used only on the negative-budget
branch of the sizing formula, where the floor of a negated square root is a
negated ceiling). -/
def rat_sqrt_ceil (y : ℚ) : ℕ :=
  let m := y.num.toNat * y.den
  let s := isqrt m
  let c := if s * s = m then s else s + 1
  (c + y.den - 1) / y.den

/-- Exact `⌊t · √q⌋` for rationals `t`, `q` (the square root of a negative
`q` is taken as `0`, matching `Real.sqrt`; the sizing code only reaches this
with a confidence at or above the non-negative minimum). -/
def floor_mul_sqrt (t q : ℚ) : ℤ :=
  let y := t ^ 2 * max q 0
  if 0 ≤ t then (rat_sqrt_floor y : ℤ) else -(rat_sqrt_ceil y : ℤ)

/-- `RiskManager.size_position`: `0` below the confidence gate or for a
non-positive contract price, else
`⌊account_equity · min(risk_fraction, daily_cap) · √confidence / price⌋`
clamped by `max 0 (min · max_positions)`.  The float expression
`budget // price` is `(risk_capital/price) · √confidence` exactly. -/
def size_position (rm : RiskManager) (p : PositionSizingInput) : ℤ :=
  if p.confidence < rm.min_confidence then 0
  else
    let risk_capital := p.account_equity * min p.trade_risk_fraction rm.max_daily_loss_pct
    if p.contract_price ≤ 0 then 0
    else
      let qty := floor_mul_sqrt (risk_capital / p.contract_price) p.confidence
      max 0 (min qty p.max_positions)

/-- `RiskManager.stop_loss_price`. -/
def stop_loss_price (entry_price risk_fraction : ℚ) : ℚ :=
  max 0.01 (entry_price * (1 - risk_fraction))

/-- `RiskManager.take_profit_price`. -/
def take_profit_price (entry_price reward_multiplier risk_fraction : ℚ) : ℚ :=
  entry_price * (1 + reward_multiplier * risk_fraction)

/-! ## Feature computation (`features/technicals.py`) -/

/-- The feature mapping `compute_intraday_features` returns.  The reported
volatility is `std · √390`, an irrational scaling of a standard deviation;
it is carried here as its square (`390 ·` variance), a strictly monotone
encoding on the non-negative reals, so the computation stays in `ℚ`.  It is
zero exactly when the reported volatility is zero. -/
structure IntradayFeatures where
  momentum_15 : ℚ
  momentum_60 : ℚ
  volatility_sq : ℚ
deriving DecidableEq, Inhabited

/-- `_pct_change(series, window)`: shrink the window to `len - 1` when fewer
than `window + 1` values exist, return `0` for an empty window, else the
percent change from `series.iloc[-window-1]` to the last value (`0` when the
baseline is zero, by the source's `if start` truthiness test). -/
def pct_change (closes : List ℚ) (window : ℕ) : ℚ :=
  let w := if closes.length < window + 1 then closes.length - 1 else window
  if w = 0 then 0
  else
    let start := closes.getD (closes.length - 1 - w) 0
    let stop := closes.getD (closes.length - 1) 0
    if start ≠ 0 then (stop - start) / start else 0

/-- One-bar returns `close.pct_change()` (without the leading `NaN`, which
every later consumer drops). -/
def bar_returns (closes : List ℚ) : List ℚ :=
  List.zipWith (fun prev cur => cur / prev - 1) closes closes.tail

/-- Population variance (`ddof=0`) of a list, `0` for the empty list. -/
def population_variance (l : List ℚ) : ℚ :=
  if l.isEmpty then 0
  else
    let k : ℚ := l.length
    (l.map (fun r => r ^ 2)).sum / k - ((l.sum) / k) ^ 2

/-- `compute_intraday_features`: all-zero record for an empty frame, else
the 15- and 60-bar percent changes and the squared annualized volatility
(`390 ·` population variance of the trailing 60 one-bar returns; `0` when
fewer than two closes exist). -/
def compute_intraday_features (closes : List ℚ) : IntradayFeatures :=
  if closes.isEmpty then { momentum_15 := 0, momentum_60 := 0, volatility_sq := 0 }
  else
    let rets := bar_returns closes
    let window := rets.drop (rets.length - 60)
    { momentum_15 := pct_change closes 15
      momentum_60 := pct_change closes 60
      volatility_sq := if closes.length > 1 then 390 * population_variance window else 0 }

/-! ## Backtest engine (`backtest/engine.py`) -/

/-- `BacktestConfig`. -/
structure BacktestConfig where
  starting_equity : ℚ := 150
  risk_fraction : ℚ := 0.02
  commission_per_contract : ℚ := 0.65
  max_positions : ℤ := 1
deriving DecidableEq, Inhabited

/-- `TradeRecord`. -/
structure TradeRecord where
  ticker : String
  direction : Direction
  entry_price : ℚ
  exit_price : ℚ
  quantity : ℤ
  pnl : ℚ
  confidence : ℚ
  metadata : Option SignalMetadata := none
deriving DecidableEq, Inhabited

/-- Python truthiness of an optional float: `none` and `some 0` are falsy. -/
def truthy (x : Option ℚ) : Bool :=
  match x with
  | none => false
  | some v => decide (v ≠ 0)

/-- A quote dict is truthy when it is non-empty; within this model's image
that is when it carries a bid or an ask. -/
def quote_truthy (q : Option Quote) : Option Quote :=
  match q with
  | none => none
  | some q => if q.bid.isSome || q.ask.isSome then some q else none

/-- `BacktestRunner._infer_entry_price`: the signal's truthy entry price,
else the mid of the direction-specific representative quote (falling back
to the `CALL` then the `PUT` entry), requiring both sides. -/
def infer_entry_price (signal : TradingSignal) (ctx : StrategyContext) : Option ℚ :=
  if truthy signal.entry_price then signal.entry_price
  else
    match ctx.option_quote with
    | none => none
    | some oq =>
      let directional : Option Quote :=
        match signal.direction with
        | .CALL => oq.call
        | .PUT => oq.put
        | .NONE => none
      let sel :=
        match quote_truthy directional with
        | some q => some q
        | none =>
          match quote_truthy oq.call with
          | some q => some q
          | none => quote_truthy oq.put
      match sel with
      | none => none
      | some q =>
        match q.bid, q.ask with
        | some b, some a => some ((b + a) / 2)
        | _, _ => none

/-- `BacktestRunner._underlying_return`: percent move from the first to the
last close, `none` without bars or with a non-positive starting close. -/
def underlying_return (ctx : StrategyContext) : Option ℚ :=
  match ctx.underlying_bars with
  | [] => none
  | c :: cs =>
    if c ≤ 0 then none
    else some (((c :: cs).getLast (by simp) - c) / c)

/-- `BacktestRunner._signal_delta_hint`: the truthy `delta`, else the
`delta_bias` metadata entry (kept even when zero), else a per-direction
default. -/
def signal_delta_hint (signal : TradingSignal) : ℚ :=
  let dflt : ℚ :=
    match signal.direction with
    | .CALL => 0.5
    | .PUT => -0.4
    | .NONE => 0.3
  match signal.metadata with
  | none => dflt
  | some md =>
    match (if truthy md.delta then md.delta else md.delta_bias) with
    | some v => v
    | none => dflt

/-- `BacktestRunner._simulate_exit_price`: the truthy target price; else the
leveraged projection of the underlying return, floored at a tenth of the
entry price; else the flat `±20% · confidence` move. -/
def simulate_exit_price (signal : TradingSignal) (ctx : StrategyContext)
    (entry_price : ℚ) : ℚ :=
  if truthy signal.target_price then signal.target_price.getD 0
  else
    match underlying_return ctx with
    | some u =>
      let direction : ℚ := if signal.direction = .CALL then 1 else -1
      let delta_hint := signal_delta_hint signal
      let leverage := max 1.5 (min 8.0 (|delta_hint| * 12))
      let projected := entry_price * (1 + direction * u * leverage)
      max (entry_price * 0.1) projected
    | none =>
      let direction : ℚ := if signal.direction = .CALL then 1 else -1
      entry_price * (1 + direction * 0.2 * signal.confidence)

/-- One iteration of the `BacktestRunner.run` loop: evaluate the strategy on
one context, either skip (equity unchanged, no trade) or realize the trade's
P&L into equity and record it. -/
def run_step (strategy : StrategyContext → TradingSignal) (rm : RiskManager)
    (cfg : BacktestConfig) (equity : ℚ) (ctx : StrategyContext) : ℚ × Option TradeRecord :=
  let signal := strategy ctx
  if signal.direction = .NONE ∨ signal.confidence ≤ 0 then (equity, none)
  else
    match infer_entry_price signal ctx with
    | none => (equity, none)
    | some entry_price =>
      let size := size_position rm
        { account_equity := equity
          trade_risk_fraction := cfg.risk_fraction
          contract_price := entry_price
          confidence := signal.confidence
          max_positions := cfg.max_positions }
      if size = 0 then (equity, none)
      else
        let exit_price := simulate_exit_price signal ctx entry_price
        let pnl0 := (exit_price - entry_price) * size
        let pnl1 := if signal.direction = .PUT then -pnl0 else pnl0
        let pnl := pnl1 - cfg.commission_per_contract * size * 2
        (equity + pnl,
          some { ticker := signal.ticker
                 direction := signal.direction
                 entry_price := entry_price
                 exit_price := exit_price
                 quantity := size
                 pnl := pnl
                 confidence := signal.confidence
                 metadata := signal.metadata })

/-- The loop of `BacktestRunner.run`: returns the equity curve (one point
per context), the trade ledger and the final equity. -/
def run_loop (strategy : StrategyContext → TradingSignal) (rm : RiskManager)
    (cfg : BacktestConfig) (equity : ℚ) :
    List StrategyContext → List ℚ × List TradeRecord × ℚ
  | [] => ([], [], equity)
  | ctx :: rest =>
    let step := run_step strategy rm cfg equity ctx
    let tail := run_loop strategy rm cfg step.1 rest
    (step.1 :: tail.1,
     (match step.2 with | some tr => tr :: tail.2.1 | none => tail.2.1),
     tail.2.2)

/-- Running maximum of the tail given the maximum so far (`Series.cummax`). -/
def running_max_from (m : ℚ) : List ℚ → List ℚ
  | [] => []
  | x :: xs => max m x :: running_max_from (max m x) xs

/-- `Series.cummax` of an equity curve. -/
def running_max : List ℚ → List ℚ
  | [] => []
  | x :: xs => x :: running_max_from x xs

/-- `BacktestRunner._max_drawdown`: `|min((equity - cummax)/cummax)|`, `0`
for an empty curve. -/
def max_drawdown (equity : List ℚ) : ℚ :=
  let dd := List.zipWith (fun x m => (x - m) / m) equity (running_max equity)
  |(dd.min?.getD 0)|

/-- `BacktestResult` together with its `stats` entries. -/
structure BacktestResult where
  equity_curve : List ℚ
  trades : List TradeRecord
  final_equity : ℚ
  return_pct : ℚ
  stat_max_drawdown : ℚ
  num_trades : ℕ
deriving DecidableEq, Inhabited

/-- `BacktestRunner.run`. -/
def run (strategy : StrategyContext → TradingSignal) (rm : RiskManager)
    (cfg : BacktestConfig) (snapshots : List StrategyContext) : BacktestResult :=
  let lp := run_loop strategy rm cfg cfg.starting_equity snapshots
  { equity_curve := lp.1
    trades := lp.2.1
    final_equity := lp.2.2
    return_pct := lp.2.2 / cfg.starting_equity - 1
    stat_max_drawdown := max_drawdown lp.1
    num_trades := lp.2.1.length }

/-! ## Specification-side definitions

These follow the wording of the specification (not the code) and are
compared with the code-side definitions above. -/

/-- Direction determination as the specification words it:
momentum above the (NaN-relaxed) threshold with `iv_change ≤ -iv_squeeze_threshold`
gives CALL; momentum below the negated threshold with
`iv_change ≥ +iv_squeeze_threshold` gives PUT; then the unconditional
momentum branches; then the flow branch; else NONE.  First match wins. -/
def spec_direction (cfg : MomentumIVConfig) (momentum : ℚ) (iv_change : Option ℚ)
    (flow_bias : ℚ) : Direction :=
  let thr := if iv_change.isNone then cfg.momentum_threshold * 0.5 else cfg.momentum_threshold
  if decide (thr < momentum) && iv_le iv_change (-cfg.iv_squeeze_threshold) then .CALL
  else if decide (momentum < -thr) && iv_ge iv_change cfg.iv_squeeze_threshold then .PUT
  else if thr < momentum then .CALL
  else if momentum < -thr then .PUT
  else if cfg.option_flow_threshold ≤ |flow_bias| then
    (if 0 < flow_bias then .CALL else .PUT)
  else .NONE

/-- Momentum feature as the specification words it: percent change of close
over the trailing `window` bars, with the bar `window + 1` steps back as
baseline when it exists and the earliest bar otherwise. -/
def spec_momentum (closes : List ℚ) (window : ℕ) : ℚ :=
  match closes with
  | [] => 0
  | _ =>
    let base :=
      closes.getD (if window + 1 ≤ closes.length then closes.length - 1 - window else 0) 0
    let stop := closes.getD (closes.length - 1) 0
    (stop - base) / base

/-- P&L of a recorded trade as the specification words it:
`(exit - entry) * quantity`, sign-flipped for PUT, minus the round-trip
commission `commission_per_contract * quantity * 2`. -/
def pnl_formula (cfg : BacktestConfig) (tr : TradeRecord) : ℚ :=
  (if tr.direction = Direction.PUT then -1 else 1) *
      ((tr.exit_price - tr.entry_price) * tr.quantity) -
    cfg.commission_per_contract * tr.quantity * 2

/-! ## Concrete data used by counterexamples and witnesses -/

/-- The default risk manager (`max_daily_loss_pct = 0.05`,
`min_confidence = 0.2`). -/
def defaultRiskManager : RiskManager := {}

/-- The default backtest configuration. -/
def defaultBacktestConfig : BacktestConfig := {}

/-- A context whose `underlying_bars`, `option_chain`, `option_quote` and
`news_items` are all empty while the precomputed features carry a momentum
(the exact shape of the repository's feature-fallback unit test). -/
def ctxFeaturesOnly : StrategyContext :=
  { ticker := "AAPL"
    features := some { momentum_15 := some 0.01 } }

/-- An all-empty context. -/
def ctxEmpty : StrategyContext := { ticker := "AAPL" }

/-- A call leg with a given open interest. -/
def callLeg (oi : ℚ) : Leg := { contract_type := "call", open_interest := some oi }

/-- A put leg with a given open interest. -/
def putLeg (oi : ℚ) : Leg := { contract_type := "put", open_interest := some oi }

/-- Empty metrics, chain with call open interest 200 against put open
interest 50: flow ratio `0.6`, above the flow threshold. -/
def ctxFlowLarge : StrategyContext :=
  { ticker := "AAPL"
    option_chain := [callLeg 200, putLeg 50] }

/-- A strategy that always answers CALL at confidence `0.9` with explicit
entry and target prices (the shape of the repository's backtest tests). -/
def alwaysCallStrategy (ctx : StrategyContext) : TradingSignal :=
  { ticker := ctx.ticker
    direction := .CALL
    confidence := 0.9
    entry_price := some 1.5
    target_price := some 2 }

/-! ## Theorems -/

/-- C1: for every momentum, iv_change and flow_bias, the scorer's direction
determination agrees with the specification's precedence list (first match
wins, with the momentum threshold halved when `iv_change` is `NaN`), for
every configuration with a non-negative momentum threshold. -/
theorem determine_direction_matches_spec (cfg : MomentumIVConfig)
    (h : 0 ≤ cfg.momentum_threshold) (momentum : ℚ) (iv_change : Option ℚ)
    (flow_bias : ℚ) :
    determine_direction cfg momentum iv_change flow_bias =
      spec_direction cfg momentum iv_change flow_bias := by
  unfold determine_direction spec_direction effective_threshold
  cases iv_change with
  | none => simp [iv_le, iv_ge]
  | some v =>
    by_cases hm : cfg.momentum_threshold < momentum
    · have hm2 : ¬ momentum < -cfg.momentum_threshold := by intro hc; linarith
      simp only [Option.isNone_some, Bool.false_eq_true, if_false, iv_le, iv_ge]
      simp [hm, hm2]
    · by_cases hm2 : momentum < -cfg.momentum_threshold
      · simp only [Option.isNone_some, Bool.false_eq_true, if_false, iv_le, iv_ge]
        simp [hm, hm2]
      · simp only [Option.isNone_some, Bool.false_eq_true, if_false, iv_le, iv_ge]
        simp [hm, hm2]

/-- Witness for C1 at the default configuration. -/
theorem determine_direction_matches_spec_witness :
    (0:ℚ) ≤ defaultConfig.momentum_threshold ∧
      determine_direction defaultConfig 0.01 none 0 =
        spec_direction defaultConfig 0.01 none 0 :=
  ⟨by norm_num [defaultConfig, MomentumIVConfig.momentum_threshold],
    determine_direction_matches_spec defaultConfig
      (by norm_num [defaultConfig, MomentumIVConfig.momentum_threshold]) 0.01 none 0⟩

/-- C10: with a non-negative momentum threshold, the chosen direction is the
same for any two non-NaN iv_change values — the IV-squeeze branches never
change the outcome, since each is followed by an unconditional momentum
branch returning the same direction. -/
theorem determine_direction_iv_invariant (cfg : MomentumIVConfig)
    (h : 0 ≤ cfg.momentum_threshold) (momentum flow_bias v1 v2 : ℚ) :
    determine_direction cfg momentum (some v1) flow_bias =
      determine_direction cfg momentum (some v2) flow_bias := by
  unfold determine_direction effective_threshold
  by_cases hm : cfg.momentum_threshold < momentum
  · have hm2 : ¬ momentum < -cfg.momentum_threshold := by intro hc; linarith
    simp only [Option.isNone_some, Bool.false_eq_true, if_false, iv_le, iv_ge]
    simp [hm, hm2]
  · by_cases hm2 : momentum < -cfg.momentum_threshold
    · simp only [Option.isNone_some, Bool.false_eq_true, if_false, iv_le, iv_ge]
      simp [hm, hm2]
    · simp only [Option.isNone_some, Bool.false_eq_true, if_false, iv_le, iv_ge]
      simp [hm, hm2]

/-- Witness for C10 at the default configuration. -/
theorem determine_direction_iv_invariant_witness :
    (0:ℚ) ≤ defaultConfig.momentum_threshold ∧
      determine_direction defaultConfig 0.002 (some (-0.06)) 0 =
        determine_direction defaultConfig 0.002 (some 0.03) 0 :=
  ⟨by norm_num [defaultConfig, MomentumIVConfig.momentum_threshold],
    determine_direction_iv_invariant defaultConfig
      (by norm_num [defaultConfig, MomentumIVConfig.momentum_threshold]) 0.002 0 (-0.06) 0.03⟩

/-- C3: `size_position` returns 0 whenever the confidence is below the
minimum or the contract price is non-positive, regardless of the other
fields. -/
theorem size_position_fails_safe (rm : RiskManager) (p : PositionSizingInput)
    (h : p.confidence < rm.min_confidence ∨ p.contract_price ≤ 0) :
    size_position rm p = 0 := by
  unfold size_position
  rcases h with h | h
  · simp [h]
  · by_cases hc : p.confidence < rm.min_confidence <;> simp [hc, h]

/-- Witness for C3: the repository's own low-confidence scenario
(`equity 150, risk 0.02, price 5, confidence 0.1`). -/
theorem size_position_fails_safe_witness :
    size_position { min_confidence := 0.3 }
      { account_equity := 150, trade_risk_fraction := 0.02, contract_price := 5,
        confidence := 0.1 } = 0 :=
  size_position_fails_safe _ _ (Or.inl (by norm_num))

/-- The structural integer square root never overshoots. -/
theorem isqrt_aux_sq_le (m n : ℕ) : isqrt_aux m n * isqrt_aux m n ≤ n := by
  induction m with
  | zero => simp [isqrt_aux]
  | succ k ih =>
    unfold isqrt_aux
    split_ifs with h
    · exact h
    · exact ih

/-- The structural integer square root is within one of the root. -/
theorem lt_isqrt_aux_succ (m n : ℕ) (h : n < (m + 1) * (m + 1)) :
    n < (isqrt_aux m n + 1) * (isqrt_aux m n + 1) := by
  induction m with
  | zero => simpa [isqrt_aux] using h
  | succ k ih =>
    unfold isqrt_aux
    split_ifs with hk
    · exact h
    · exact ih (by omega)

/-- `isqrt` squares to at most its argument. -/
theorem isqrt_sq_le (n : ℕ) : isqrt n * isqrt n ≤ n :=
  isqrt_aux_sq_le n n

/-- `isqrt` is the floor of the square root. -/
theorem lt_isqrt_succ (n : ℕ) : n < (isqrt n + 1) * (isqrt n + 1) :=
  lt_isqrt_aux_succ n n (by nlinarith)

/-- `isqrt` computes the natural floor of the real square root. -/
theorem nat_floor_sqrt_eq_isqrt (m : ℕ) : ⌊Real.sqrt m⌋₊ = isqrt m := by
  rw [Nat.floor_eq_iff (Real.sqrt_nonneg _)]
  constructor
  · refine Real.le_sqrt_of_sq_le ?_
    have h : isqrt m ^ 2 ≤ m := by have := isqrt_sq_le m; nlinarith
    exact_mod_cast h
  · rw [Real.sqrt_lt' (by positivity)]
    have h : m < (isqrt m + 1) ^ 2 := by have := lt_isqrt_succ m; nlinarith
    exact_mod_cast h

/-- `rat_sqrt_floor` computes the integer floor of the real square root of a
non-negative rational. -/
theorem rat_sqrt_floor_eq (y : ℚ) (hy : 0 ≤ y) :
    (rat_sqrt_floor y : ℤ) = ⌊Real.sqrt ((y : ℝ))⌋ := by
  have hd : 0 < (y.den : ℝ) := by exact_mod_cast y.den_pos
  have hn : (y.num.toNat : ℤ) = y.num := Int.toNat_of_nonneg (Rat.num_nonneg.mpr hy)
  have hcast : (y : ℝ) = (y.num.toNat : ℝ) / (y.den : ℝ) := by
    rw [Rat.cast_def]
    congr 1
    exact_mod_cast congrArg (fun z : ℤ => (z : ℝ)) hn.symm
  have hprod : (y : ℝ) = ((y.num.toNat * y.den : ℕ) : ℝ) / ((y.den : ℝ) ^ 2) := by
    rw [hcast]
    push_cast
    field_simp
    ring
  have hsq : Real.sqrt (y : ℝ) =
      Real.sqrt ((y.num.toNat * y.den : ℕ) : ℝ) / (y.den : ℝ) := by
    rw [hprod, Real.sqrt_div (by positivity), Real.sqrt_sq hd.le]
  rw [hsq]
  have hfn : (0 : ℝ) ≤ Real.sqrt ((y.num.toNat * y.den : ℕ) : ℝ) / (y.den : ℝ) := by positivity
  rw [← Int.natCast_floor_eq_floor hfn]
  congr 1
  rw [Nat.floor_div_nat, nat_floor_sqrt_eq_isqrt]
  rfl

/-- `floor_mul_sqrt` computes `⌊t · √q⌋` exactly for a non-negative
multiplier. -/
theorem floor_mul_sqrt_eq (t q : ℚ) (ht : 0 ≤ t) :
    floor_mul_sqrt t q = ⌊(t : ℝ) * Real.sqrt ((q : ℝ))⌋ := by
  unfold floor_mul_sqrt
  rw [if_pos ht, rat_sqrt_floor_eq _ (by positivity)]
  congr 1
  rcases le_total q 0 with hq | hq
  · have h1 : max q 0 = 0 := max_eq_right hq
    have h2 : Real.sqrt ((q : ℝ)) = 0 := Real.sqrt_eq_zero'.mpr (by exact_mod_cast hq)
    rw [h1, h2]
    push_cast
    simp
  · have h1 : max q 0 = q := max_eq_left hq
    rw [h1]
    have h2 : (((t ^ 2 * q : ℚ)) : ℝ) = ((t : ℝ)) ^ 2 * ((q : ℝ)) := by push_cast; ring
    rw [h2, Real.sqrt_mul (by positivity), Real.sqrt_sq (by exact_mod_cast ht)]

/-- C4: above the confidence gate and with a positive contract price (and
the data-model's non-negative equity, risk fraction, confidence, daily cap
and position cap), `size_position` is exactly
`⌊equity · min(risk_fraction, daily_cap) · √confidence / price⌋` clamped to
`[0, max_positions]`, and in particular never exceeds `max_positions`. -/
theorem size_position_formula (rm : RiskManager) (p : PositionSizingInput)
    (hconf : rm.min_confidence ≤ p.confidence) (hprice : 0 < p.contract_price)
    (hc0 : 0 ≤ p.confidence) (heq : 0 ≤ p.account_equity)
    (hfrac : 0 ≤ p.trade_risk_fraction) (hcap : 0 ≤ rm.max_daily_loss_pct)
    (hmax : 0 ≤ p.max_positions) :
    size_position rm p =
      max 0 (min
        ⌊((p.account_equity * min p.trade_risk_fraction rm.max_daily_loss_pct : ℚ) : ℝ) *
            Real.sqrt ((p.confidence : ℚ)) / ((p.contract_price : ℚ))⌋
        p.max_positions) ∧
    size_position rm p ≤ p.max_positions := by
  have hnotlt : ¬ p.confidence < rm.min_confidence := not_lt.mpr hconf
  have hnotle : ¬ p.contract_price ≤ 0 := not_le.mpr hprice
  have hrc : (0 : ℚ) ≤ p.account_equity * min p.trade_risk_fraction rm.max_daily_loss_pct :=
    mul_nonneg heq (le_min hfrac hcap)
  constructor
  · unfold size_position
    rw [if_neg hnotlt, if_neg hnotle]
    rw [floor_mul_sqrt_eq _ _ (div_nonneg hrc hprice.le)]
    push_cast
    ring
  · unfold size_position
    rw [if_neg hnotlt, if_neg hnotle]
    exact max_le hmax (min_le_right _ _)

/-- Witness for C4: the sized quantity for the default risk manager at
equity 150, risk fraction 0.02, price 1.5, confidence 0.9 respects the
position cap of 1. -/
theorem size_position_formula_witness :
    size_position defaultRiskManager
      { account_equity := 150, trade_risk_fraction := 0.02, contract_price := 1.5,
        confidence := 0.9, max_positions := 1 } ≤ 1 :=
  (size_position_formula defaultRiskManager
    { account_equity := 150, trade_risk_fraction := 0.02, contract_price := 1.5,
      confidence := 0.9, max_positions := 1 }
    (by norm_num [defaultRiskManager]) (by norm_num) (by norm_num) (by norm_num)
    (by norm_num) (by norm_num [defaultRiskManager]) (by norm_num)).2

/-- C2: evaluation of the staged code — `generate_signal` raises
`AttributeError` on every context, because the `StrategyContext` dataclass
of `strategies/base.py` declares no `option_metrics` field while
`momentum_iv.py` line 274 reads one.  In particular no context with empty
`underlying_bars`, `option_chain`, `option_quote` and `news_items` yields
the NONE signal with baseline-floored confidence that the claim (and the
repository's own tests and backtest data loader, which construct contexts
with `option_metrics` and consume the returned signals) expects. -/
theorem generate_signal_raises (cfg : MomentumIVConfig) (ctx : StrategyContext) :
    generate_signal cfg ctx = Except.error attributeErrorMsg := rfl

/-- C5: the momentum fallbacks.  (i) The used momentum is always one of the
three candidates — bars, features, quote spread — never a combination.
(ii) Bar momentum at or above the threshold is used as-is.  (iii) For bars
with positive closes (keeping the bar momentum finite in the source), a
feature momentum that beats the bar momentum's magnitude while the latter
is below threshold is adopted, and once at or above threshold the quote
fallback cannot displace it.  (iv) Within the feature mapping, a non-zero
`momentum_15` wins over `momentum_60`.  (v) In the claim's scenario — bars
below threshold, `momentum_15` above threshold, no option quote — the
feature momentum is indeed the one in use, but `generate_signal` then
raises `AttributeError` at momentum_iv.py line 274 instead of producing the
direction the claim (and the repository's feature-fallback test) expects. -/
theorem signal_momentum_fallbacks (cfg : MomentumIVConfig) :
    (∀ ctx : StrategyContext,
        signal_momentum cfg ctx = compute_momentum cfg ctx.underlying_bars ∨
        signal_momentum cfg ctx = momentum_from_features ctx.features ∨
        signal_momentum cfg ctx = momentum_from_quotes ctx.option_quote) ∧
    (∀ ctx : StrategyContext,
        cfg.momentum_threshold ≤ |compute_momentum cfg ctx.underlying_bars| →
        signal_momentum cfg ctx = compute_momentum cfg ctx.underlying_bars) ∧
    (∀ ctx : StrategyContext,
        (∀ x ∈ ctx.underlying_bars, 0 < x) →
        |compute_momentum cfg ctx.underlying_bars| < cfg.momentum_threshold →
        |compute_momentum cfg ctx.underlying_bars| < |momentum_from_features ctx.features| →
        cfg.momentum_threshold ≤ |momentum_from_features ctx.features| →
        signal_momentum cfg ctx = momentum_from_features ctx.features) ∧
    (∀ (f : Features) (v : ℚ), f.momentum_15 = some v → v ≠ 0 →
        momentum_from_features (some f) = v) ∧
    (∀ (ctx : StrategyContext) (f : Features) (v : ℚ),
        0 ≤ cfg.momentum_threshold →
        (∀ x ∈ ctx.underlying_bars, 0 < x) →
        |compute_momentum cfg ctx.underlying_bars| < cfg.momentum_threshold →
        ctx.features = some f → f.momentum_15 = some v →
        cfg.momentum_threshold < |v| → ctx.option_quote = none →
        signal_momentum cfg ctx = v ∧
          generate_signal cfg ctx = Except.error attributeErrorMsg) := by
  refine ⟨?_, ?_, ?_, ?_, ?_⟩
  · intro ctx
    simp only [signal_momentum]
    split_ifs <;> tauto
  · intro ctx h
    simp [signal_momentum, not_lt.mpr h]
  · intro ctx _ h1 h2 h3
    simp [signal_momentum, h1, h2, not_lt.mpr h3]
  · intro f v hv hnz
    simp [momentum_from_features, hv, hnz]
  · intro ctx f v hthr _ hbelow hfeat hv hbig hquote
    have hnz : v ≠ 0 := by
      intro hc
      rw [hc] at hbig
      simp at hbig
      linarith
    have hfv : momentum_from_features ctx.features = v := by
      rw [hfeat]
      simp [momentum_from_features, hv, hnz]
    have hsm : signal_momentum cfg ctx = v := by
      have h2 : |compute_momentum cfg ctx.underlying_bars| < |v| :=
        lt_trans hbelow hbig
      have := hfv
      simp [signal_momentum, hbelow, hfv, h2, not_lt.mpr (le_of_lt hbig)]
    exact ⟨hsm, rfl⟩

/-- Witness for C5 at the feature-fallback scenario (empty bars,
`momentum_15 = 0.01`, no option quote): the feature momentum is adopted and
the signal call raises. -/
theorem signal_momentum_fallbacks_witness :
    signal_momentum defaultConfig ctxFeaturesOnly = 0.01 ∧
      generate_signal defaultConfig ctxFeaturesOnly = Except.error attributeErrorMsg :=
  (signal_momentum_fallbacks defaultConfig).2.2.2.2 ctxFeaturesOnly
    { momentum_15 := some 0.01 } 0.01
    (by norm_num [defaultConfig])
    (by intro x hx; simp [ctxFeaturesOnly] at hx)
    (by norm_num [ctxFeaturesOnly, compute_momentum, defaultConfig])
    rfl rfl
    (by rw [abs_of_pos (by norm_num : (0:ℚ) < 0.01)]; norm_num [defaultConfig]) rfl

/-- Evaluation fact for the upper-casing of the literal `"call"`. -/
theorem str_upper_call : str_upper "call" = "CALL" := rfl

/-- Evaluation fact for the upper-casing of the literal `"put"`. -/
theorem str_upper_put : str_upper "put" = "PUT" := rfl

/-- C6: evaluation of the staged code at the claim’s scenario (empty
`option_metrics`, chain with call open interest 200 against put open
interest 50 — the shape of the repository’s chain-fallback test).  The
flow method `_option_flow_metrics` by itself would produce the strictly
positive flow ratio `3/5`, but `generate_signal` raises `AttributeError`
at momentum_iv.py line 274 — before any flow metric or direction is
computed — so the CALL signal the claim asserts is never produced. -/
theorem flow_fallback_bug :
    (ingest {} ctxFlowLarge.option_chain).put_oi <
        (ingest {} ctxFlowLarge.option_chain).call_oi ∧
      (option_flow_metrics [] ctxFlowLarge.option_chain).flow_ratio = 3 / 5 ∧
      0 < (option_flow_metrics [] ctxFlowLarge.option_chain).flow_ratio ∧
      generate_signal defaultConfig ctxFlowLarge = Except.error attributeErrorMsg := by
  refine ⟨?_, ?_, ?_, rfl⟩
  · norm_num +decide [ingest, ingest_leg, ctxFlowLarge, callLeg, putLeg,
      leg_contract_type, str_upper_call, str_upper_put, estimate_liquidity]
  · norm_num +decide [option_flow_metrics, ingest, ingest_leg, ctxFlowLarge, callLeg,
      putLeg, leg_contract_type, str_upper_call, str_upper_put, estimate_liquidity]
  · norm_num +decide [option_flow_metrics, ingest, ingest_leg, ctxFlowLarge, callLeg,
      putLeg, leg_contract_type, str_upper_call, str_upper_put, estimate_liquidity]

/-- One backtest step either leaves equity unchanged with no trade, or
records a trade whose stored P&L follows the commission-adjusted formula and
adds exactly that P&L to equity. -/
theorem run_step_spec (strategy : StrategyContext → TradingSignal) (rm : RiskManager)
    (cfg : BacktestConfig) (equity : ℚ) (ctx : StrategyContext) :
    (∀ tr, (run_step strategy rm cfg equity ctx).2 = some tr →
        tr.pnl = pnl_formula cfg tr ∧
          (run_step strategy rm cfg equity ctx).1 = equity + tr.pnl) ∧
      ((run_step strategy rm cfg equity ctx).2 = none →
        (run_step strategy rm cfg equity ctx).1 = equity) := by
  simp only [run_step]
  by_cases h1 : (strategy ctx).direction = Direction.NONE ∨ (strategy ctx).confidence ≤ 0
  · simp [h1]
  · rw [if_neg h1]
    rcases hip : infer_entry_price (strategy ctx) ctx with _ | entry
    · simp
    · by_cases h2 : size_position rm
          { account_equity := equity
            trade_risk_fraction := cfg.risk_fraction
            contract_price := entry
            confidence := (strategy ctx).confidence
            max_positions := cfg.max_positions } = 0
      · simp [h2]
      · simp only [h2, if_false, if_neg h2]
        constructor
        · intro tr htr
          rw [← Option.some_inj.mp htr]
          constructor
          · simp only [pnl_formula]
            split_ifs <;> ring
          · rfl
        · intro hc
          exact absurd hc (by simp)

/-- Every trade in the backtest ledger carries the commission-adjusted P&L. -/
theorem run_loop_trades_pnl (strategy : StrategyContext → TradingSignal) (rm : RiskManager)
    (cfg : BacktestConfig) (ctxs : List StrategyContext) (equity : ℚ) (tr : TradeRecord)
    (h : tr ∈ (run_loop strategy rm cfg equity ctxs).2.1) :
    tr.pnl = pnl_formula cfg tr := by
  induction ctxs generalizing equity with
  | nil => simp [run_loop] at h
  | cons c rest ih =>
    simp only [run_loop] at h
    rcases hstep : (run_step strategy rm cfg equity c).2 with _ | tr0
    · rw [hstep] at h
      exact ih _ h
    · rw [hstep] at h
      rcases List.mem_cons.mp h with h | h
      · rw [← h] at hstep
        exact ((run_step_spec strategy rm cfg equity c).1 tr hstep).1
      · exact ih _ h

/-- C7: every trade the backtest engine records stores
`(exit - entry) * quantity`, sign-flipped for PUT, minus the round-trip
commission, as its P&L; and at the recording step the running equity is
incremented by exactly that P&L (unchanged when no trade is recorded). -/
theorem backtest_pnl_correct (strategy : StrategyContext → TradingSignal) (rm : RiskManager)
    (cfg : BacktestConfig) :
    (∀ (ctxs : List StrategyContext) (tr : TradeRecord),
        tr ∈ (run strategy rm cfg ctxs).trades → tr.pnl = pnl_formula cfg tr) ∧
      (∀ (equity : ℚ) (ctx : StrategyContext),
        (∀ tr, (run_step strategy rm cfg equity ctx).2 = some tr →
            tr.pnl = pnl_formula cfg tr ∧
              (run_step strategy rm cfg equity ctx).1 = equity + tr.pnl) ∧
          ((run_step strategy rm cfg equity ctx).2 = none →
            (run_step strategy rm cfg equity ctx).1 = equity)) :=
  ⟨fun ctxs tr h => run_loop_trades_pnl strategy rm cfg ctxs cfg.starting_equity tr h,
    fun equity ctx => run_step_spec strategy rm cfg equity ctx⟩

/-- Witness for C7: the single trade of a one-context backtest under the
always-CALL strategy carries the commission-adjusted P&L. -/
theorem backtest_pnl_correct_witness :
    ((run alwaysCallStrategy defaultRiskManager defaultBacktestConfig
        [ctxEmpty]).trades.getD 0 default).pnl =
      pnl_formula defaultBacktestConfig
        ((run alwaysCallStrategy defaultRiskManager defaultBacktestConfig
          [ctxEmpty]).trades.getD 0 default) :=
  (backtest_pnl_correct alwaysCallStrategy defaultRiskManager defaultBacktestConfig).1
    [ctxEmpty] _
    (by norm_num +decide [run, run_loop, run_step, alwaysCallStrategy, ctxEmpty,
      defaultRiskManager, defaultBacktestConfig, infer_entry_price, truthy,
      size_position, floor_mul_sqrt, rat_sqrt_floor, isqrt, isqrt_aux,
      simulate_exit_price, underlying_return, signal_delta_hint, quote_truthy])

/-- `running_max_from` preserves length. -/
theorem running_max_from_length (m : ℚ) (l : List ℚ) :
    (running_max_from m l).length = l.length := by
  induction l generalizing m with
  | nil => rfl
  | cons x xs ih => simp [running_max_from, ih]

/-- `running_max` preserves length. -/
theorem running_max_length (e : List ℚ) : (running_max e).length = e.length := by
  cases e with
  | nil => rfl
  | cons x xs => simp [running_max, running_max_from_length]

/-- Every entry of `running_max_from m l` is at least the seed `m`. -/
theorem running_max_from_ge_init : ∀ (l : List ℚ) (m : ℚ) (j : ℕ)
    (hj : j < (running_max_from m l).length), m ≤ (running_max_from m l).get ⟨j, hj⟩
  | [], m, j, hj => absurd hj (by simp [running_max_from])
  | x :: xs, m, 0, _ => le_max_left m x
  | x :: xs, m, j + 1, hj => by
    have h := running_max_from_ge_init xs (max m x) j
      (by simpa [running_max_from] using hj)
    exact le_trans (le_max_left m x) h

/-- Every entry of `running_max_from m l` dominates every earlier element of
`l`. -/
theorem running_max_from_ge_elem : ∀ (l : List ℚ) (m : ℚ) (i j : ℕ) (_ : i ≤ j)
    (hi : i < l.length) (hj : j < (running_max_from m l).length),
    l.get ⟨i, hi⟩ ≤ (running_max_from m l).get ⟨j, hj⟩
  | [], _, _, _, _, hi, _ => absurd hi (by simp)
  | x :: xs, m, 0, 0, _, _, _ => le_max_right m x
  | x :: xs, m, 0, j + 1, _, _, hj => by
    have h := running_max_from_ge_init xs (max m x) j
      (by simpa [running_max_from] using hj)
    exact le_trans (le_max_right m x) h
  | x :: xs, m, i + 1, j + 1, hij, hi, hj => by
    have h := running_max_from_ge_elem xs (max m x) i j (Nat.succ_le_succ_iff.mp hij)
      (by simpa using hi) (by simpa [running_max_from] using hj)
    simpa [running_max_from] using h

/-- Every entry of `running_max_from m l` is the seed or some earlier
element of `l`. -/
theorem running_max_from_attain : ∀ (l : List ℚ) (m : ℚ) (j : ℕ)
    (hj : j < (running_max_from m l).length),
    (running_max_from m l).get ⟨j, hj⟩ = m ∨
      ∃ (i : ℕ) (hi : i < l.length), i ≤ j ∧
        (running_max_from m l).get ⟨j, hj⟩ = l.get ⟨i, hi⟩
  | [], _, j, hj => absurd hj (by simp [running_max_from])
  | x :: xs, m, 0, _ => by
    rcases max_choice m x with h | h
    · exact Or.inl h
    · exact Or.inr ⟨0, by simp, le_refl 0, h⟩
  | x :: xs, m, j + 1, hj => by
    rcases running_max_from_attain xs (max m x) j
        (by simpa [running_max_from] using hj) with h | ⟨i, hi, hij, h⟩
    · rcases max_choice m x with h2 | h2
      · exact Or.inl (by simpa [running_max_from, h2] using h)
      · exact Or.inr ⟨0, by simp, Nat.zero_le _, by simpa [running_max_from, h2] using h⟩
    · exact Or.inr ⟨i + 1, by simpa using hi, Nat.succ_le_succ hij,
        by simpa [running_max_from] using h⟩

/-- The cumulative maximum dominates every earlier element. -/
theorem running_max_ge_elem (e : List ℚ) (i j : ℕ) (hij : i ≤ j)
    (hi : i < e.length) (hj : j < (running_max e).length) :
    e.get ⟨i, hi⟩ ≤ (running_max e).get ⟨j, hj⟩ := by
  cases e with
  | nil => exact absurd hi (by simp)
  | cons x xs =>
    cases i with
    | zero =>
      cases j with
      | zero => exact le_refl x
      | succ j =>
        exact running_max_from_ge_init xs x j (by simpa [running_max] using hj)
    | succ i =>
      cases j with
      | zero => exact absurd hij (by omega)
      | succ j =>
        exact running_max_from_ge_elem xs x i j (Nat.succ_le_succ_iff.mp hij)
          (by simpa using hi) (by simpa [running_max] using hj)

/-- The cumulative maximum is attained by some earlier element. -/
theorem running_max_attain (e : List ℚ) (j : ℕ) (hj : j < (running_max e).length) :
    ∃ (i : ℕ) (hi : i < e.length), i ≤ j ∧
      (running_max e).get ⟨j, hj⟩ = e.get ⟨i, hi⟩ := by
  cases e with
  | nil => exact absurd hj (by simp [running_max])
  | cons x xs =>
    cases j with
    | zero => exact ⟨0, by simp, le_refl 0, rfl⟩
    | succ j =>
      rcases running_max_from_attain xs x j
          (by simpa [running_max] using hj) with h | ⟨i, hi, hij, h⟩
      · exact ⟨0, by simp, Nat.zero_le _, h⟩
      · exact ⟨i + 1, by simpa using hi, Nat.succ_le_succ hij, h⟩

/-- The minimum of a non-empty rational list is a member and a lower bound. -/
theorem min?_spec_rat (l : List ℚ) (a : ℚ) (h : l.min? = some a) :
    a ∈ l ∧ ∀ b ∈ l, a ≤ b := by
  have inst : Std.Antisymm fun x1 x2 : ℚ => x1 ≤ x2 := ⟨@le_antisymm ℚ _⟩
  rw [List.min?_eq_some_iff (fun x => le_refl x) (fun a b => min_choice a b)
    (fun a b c => le_min_iff)] at h
  exact h

/-- For a non-empty positive equity curve, `max_drawdown` is an upper bound
on every peak-to-trough fractional decline and is attained by one. -/
theorem max_drawdown_spec (e : List ℚ) (hne : e ≠ []) (hpos : ∀ x ∈ e, 0 < x) :
    (∀ (i j : ℕ) (hi : i < e.length) (hj : j < e.length), i ≤ j →
        (e.get ⟨i, hi⟩ - e.get ⟨j, hj⟩) / e.get ⟨i, hi⟩ ≤ max_drawdown e) ∧
      ∃ (i j : ℕ) (hi : i < e.length) (hj : j < e.length), i ≤ j ∧
        (e.get ⟨i, hi⟩ - e.get ⟨j, hj⟩) / e.get ⟨i, hi⟩ = max_drawdown e := by
  have hRlen : (running_max e).length = e.length := running_max_length e
  set dd := List.zipWith (fun x m => (x - m) / m) e (running_max e) with hdd
  have hlen : dd.length = e.length := by
    rw [hdd, List.length_zipWith, hRlen, min_self]
  obtain ⟨m, hm⟩ : ∃ m, dd.min? = some m := by
    cases hd : dd with
    | nil =>
      exfalso
      apply hne
      apply List.length_eq_zero.mp
      rw [← hlen, hd]
      rfl
    | cons a l => exact ⟨_, rfl⟩
  have hspec := min?_spec_rat dd m hm
  have hmaxd : max_drawdown e = |m| := by
    simp only [max_drawdown, ← hdd, hm, Option.getD_some]
  have hget : ∀ (j : ℕ) (hj : j < e.length),
      dd.get ⟨j, by rw [hlen]; exact hj⟩ =
        (e.get ⟨j, hj⟩ - (running_max e).get ⟨j, by rw [hRlen]; exact hj⟩) /
          (running_max e).get ⟨j, by rw [hRlen]; exact hj⟩ := by
    intro j hj
    simp [hdd, List.get_eq_getElem, List.getElem_zipWith]
  have hMpos : ∀ (j : ℕ) (hj : j < e.length),
      0 < (running_max e).get ⟨j, by rw [hRlen]; exact hj⟩ := by
    intro j hj
    obtain ⟨i, hi, _, heq⟩ := running_max_attain e j (by rw [hRlen]; exact hj)
    rw [heq]
    exact hpos _ (e.get_mem _ _)
  have hm_le : ∀ (j : ℕ) (hj : j < e.length),
      m ≤ dd.get ⟨j, by rw [hlen]; exact hj⟩ := by
    intro j hj
    exact hspec.2 _ (dd.get_mem _ _)
  have h0 : 0 < e.length := List.length_pos.mpr hne
  have hdd0 : dd.get ⟨0, by rw [hlen]; exact h0⟩ = 0 := by
    rw [hget 0 h0]
    have hM0 : (running_max e).get ⟨0, by rw [hRlen]; exact h0⟩ = e.get ⟨0, h0⟩ := by
      cases e with
      | nil => exact absurd rfl hne
      | cons x xs => rfl
    rw [hM0, sub_self, zero_div]
  have hm0 : m ≤ 0 := by
    have := hm_le 0 h0
    rw [hdd0] at this
    exact this
  have habs : |m| = -m := abs_of_nonpos hm0
  constructor
  · intro i j hi hj hij
    have hie : 0 < e.get ⟨i, hi⟩ := hpos _ (e.get_mem _ _)
    have hje : 0 < e.get ⟨j, hj⟩ := hpos _ (e.get_mem _ _)
    have hiM : e.get ⟨i, hi⟩ ≤ (running_max e).get ⟨j, by rw [hRlen]; exact hj⟩ :=
      running_max_ge_elem e i j hij hi (by rw [hRlen]; exact hj)
    have hMj : 0 < (running_max e).get ⟨j, by rw [hRlen]; exact hj⟩ := hMpos j hj
    have key : (e.get ⟨i, hi⟩ - e.get ⟨j, hj⟩) / e.get ⟨i, hi⟩ ≤
        ((running_max e).get ⟨j, by rw [hRlen]; exact hj⟩ - e.get ⟨j, hj⟩) /
          (running_max e).get ⟨j, by rw [hRlen]; exact hj⟩ := by
      rw [sub_div, sub_div, div_self (ne_of_gt hie), div_self (ne_of_gt hMj)]
      have hd : e.get ⟨j, hj⟩ / (running_max e).get ⟨j, by rw [hRlen]; exact hj⟩ ≤
          e.get ⟨j, hj⟩ / e.get ⟨i, hi⟩ :=
        div_le_div_of_nonneg_left hje.le hie hiM
      linarith
    have hneg : ((running_max e).get ⟨j, by rw [hRlen]; exact hj⟩ - e.get ⟨j, hj⟩) /
        (running_max e).get ⟨j, by rw [hRlen]; exact hj⟩ =
          -(dd.get ⟨j, by rw [hlen]; exact hj⟩) := by
      rw [hget j hj]
      ring
    rw [hmaxd, habs]
    calc (e.get ⟨i, hi⟩ - e.get ⟨j, hj⟩) / e.get ⟨i, hi⟩ ≤ _ := key
      _ = -(dd.get ⟨j, by rw [hlen]; exact hj⟩) := hneg
      _ ≤ -m := neg_le_neg (hm_le j hj)
  · obtain ⟨jf, hjf⟩ := List.mem_iff_get.mp hspec.1
    have hj : jf.1 < e.length := by rw [← hlen]; exact jf.2
    obtain ⟨i, hi, hij, hMeq⟩ := running_max_attain e jf.1 (by rw [hRlen]; exact hj)
    refine ⟨i, jf.1, hi, hj, hij, ?_⟩
    have hjR : jf.1 < (running_max e).length := by rw [hRlen]; exact hj
    have hMeq2 : (running_max e).get ⟨jf.1, hjR⟩ = e.get ⟨i, hi⟩ := hMeq
    have hjget2 : (e.get ⟨jf.1, hj⟩ - (running_max e).get ⟨jf.1, hjR⟩) /
        (running_max e).get ⟨jf.1, hjR⟩ = m := (hget jf.1 hj).symm.trans hjf
    rw [hMeq2] at hjget2
    rw [hmaxd, habs, ← hjget2]
    ring

/-- `running_max_from` is the identity on a sorted tail whose head tops the
seed. -/
theorem running_max_from_of_chain : ∀ (l : List ℚ) (m : ℚ),
    l.Chain' (· ≤ ·) → (∀ x, l.head? = some x → m ≤ x) → running_max_from m l = l
  | [], _, _, _ => rfl
  | x :: xs, m, hch, hhd => by
    have h1 : max m x = x := max_eq_right (hhd x rfl)
    simp only [running_max_from, h1]
    have hcons := List.chain'_cons'.mp hch
    rw [running_max_from_of_chain xs x hcons.2 (fun y hy => hcons.1 y hy)]

/-- The cumulative maximum of a sorted curve is the curve itself. -/
theorem running_max_of_chain (e : List ℚ) (h : e.Chain' (· ≤ ·)) :
    running_max e = e := by
  cases e with
  | nil => rfl
  | cons x xs =>
    have hcons := List.chain'_cons'.mp h
    simp only [running_max]
    rw [running_max_from_of_chain xs x hcons.2 (fun y hy => hcons.1 y hy)]

/-- A list of zeros has zero minimum (as defaulted drawdown). -/
theorem min?_getD_all_zero (l : List ℚ) (h : ∀ x ∈ l, x = 0) :
    |l.min?.getD 0| = 0 := by
  cases hl : l.min? with
  | none => simp
  | some a =>
    have ha : a ∈ l := List.min?_mem (fun a b => min_choice a b) hl
    simp [h a ha]

/-- C8: the backtest `max_drawdown` statistic is the statistic of the run's
equity curve; for every non-empty positive curve it equals the maximum
peak-to-trough fractional decline (upper bound and attainment); a strictly
increasing curve has drawdown 0; and a curve that rises to a peak `p`,
halves to `p/2` and then recovers to `p` (staying within `[p/2, p]`) has
drawdown exactly `1/2`. -/
theorem max_drawdown_correct :
    (∀ (strategy : StrategyContext → TradingSignal) (rm : RiskManager)
        (cfg : BacktestConfig) (ctxs : List StrategyContext),
        (run strategy rm cfg ctxs).stat_max_drawdown =
          max_drawdown (run strategy rm cfg ctxs).equity_curve) ∧
      (∀ (e : List ℚ), e ≠ [] → (∀ x ∈ e, 0 < x) →
        ((∀ (i j : ℕ) (hi : i < e.length) (hj : j < e.length), i ≤ j →
            (e.get ⟨i, hi⟩ - e.get ⟨j, hj⟩) / e.get ⟨i, hi⟩ ≤ max_drawdown e) ∧
          ∃ (i j : ℕ) (hi : i < e.length) (hj : j < e.length), i ≤ j ∧
            (e.get ⟨i, hi⟩ - e.get ⟨j, hj⟩) / e.get ⟨i, hi⟩ = max_drawdown e)) ∧
      (∀ (e : List ℚ), List.Pairwise (· < ·) e → max_drawdown e = 0) ∧
      (∀ (xs ys : List ℚ) (p : ℚ), 0 < p → p ∈ xs →
        (∀ x ∈ xs, p / 2 ≤ x ∧ x ≤ p) → (∀ y ∈ ys, p / 2 ≤ y ∧ y ≤ p) →
        ys.getLast? = some p →
        max_drawdown (xs ++ p / 2 :: ys) = 1 / 2) := by
  refine ⟨fun _ _ _ _ => rfl, fun e hne hpos => max_drawdown_spec e hne hpos, ?_, ?_⟩
  · intro e hsort
    have hchain : e.Chain' (· ≤ ·) := hsort.chain'.imp fun _ _ hab => le_of_lt hab
    have hrm : running_max e = e := running_max_of_chain e hchain
    have hfun : (fun a : ℚ => (a - a) / a) = fun _ : ℚ => (0 : ℚ) :=
      funext fun a => by rw [sub_self, zero_div]
    simp only [max_drawdown, hrm, List.zipWith_same, hfun]
    apply min?_getD_all_zero
    intro x hx
    rcases List.mem_map.mp hx with ⟨a, _, ha⟩
    exact ha.symm
  · intro xs ys p hp hpm hxs hys _
    have hge : ∀ z ∈ xs ++ p / 2 :: ys, p / 2 ≤ z ∧ z ≤ p := by
      intro z hz
      rcases List.mem_append.mp hz with h | h
      · exact hxs z h
      · rcases List.mem_cons.mp h with h | h
        · subst h; exact ⟨le_refl _, by linarith⟩
        · exact hys z h
    have hpos : ∀ z ∈ xs ++ p / 2 :: ys, 0 < z := fun z hz =>
      lt_of_lt_of_le (by linarith) (hge z hz).1
    have hne : xs ++ p / 2 :: ys ≠ [] := by simp
    have spec := max_drawdown_spec (xs ++ p / 2 :: ys) hne hpos
    apply le_antisymm
    · obtain ⟨i, j, hi, hj, _, heq⟩ := spec.2
      rw [← heq]
      have h1 := hge _ ((xs ++ p / 2 :: ys).get_mem i hi)
      have h2 := hge _ ((xs ++ p / 2 :: ys).get_mem j hj)
      have hie : 0 < (xs ++ p / 2 :: ys).get ⟨i, hi⟩ :=
        hpos _ ((xs ++ p / 2 :: ys).get_mem i hi)
      rw [div_le_iff₀ hie]
      linarith [h1.2, h2.1]
    · obtain ⟨i, hi, hpi⟩ := List.mem_iff_getElem.mp hpm
      have hlene : (xs ++ p / 2 :: ys).length = xs.length + (ys.length + 1) := by simp
      have hie : i < (xs ++ p / 2 :: ys).length := by omega
      have hje : xs.length < (xs ++ p / 2 :: ys).length := by omega
      have hgi : (xs ++ p / 2 :: ys).get ⟨i, hie⟩ = p := by
        simp only [List.get_eq_getElem]
        rw [List.getElem_append_left hi]
        exact hpi
      have hgj : (xs ++ p / 2 :: ys).get ⟨xs.length, hje⟩ = p / 2 := by
        simp only [List.get_eq_getElem]
        rw [List.getElem_append_right (le_refl xs.length)]
        simp
      have hb := spec.1 i xs.length hie hje (le_of_lt hi)
      rw [hgi, hgj] at hb
      have hhalf : (p - p / 2) / p = 1 / 2 := by
        rw [div_eq_iff (ne_of_gt hp)]
        ring
      rw [hhalf] at hb
      exact hb

/-- Witness for C8: a strictly increasing curve has drawdown 0; the curve
`[100, 50, 100]` has drawdown `1/2`. -/
theorem max_drawdown_correct_witness :
    max_drawdown [1, 2, 3] = 0 ∧ max_drawdown [(100 : ℚ), 50, 100] = 1 / 2 := by
  constructor
  · exact max_drawdown_correct.2.2.1 [1, 2, 3] (by norm_num [List.pairwise_cons])
  · have h := max_drawdown_correct.2.2.2 [100] [100] 100 (by norm_num) (by simp)
      (by intro x hx; simp at hx; subst hx; norm_num)
      (by intro y hy; simp at hy; subst hy; norm_num) rfl
    norm_num at h
    exact h

/-- `_pct_change` agrees with the specification's description of the
momentum feature for every close series and window. -/
theorem pct_change_eq_spec (closes : List ℚ) (N : ℕ) :
    pct_change closes N = spec_momentum closes N := by
  cases closes with
  | nil => simp [pct_change, spec_momentum]
  | cons c cs =>
    simp only [pct_change, spec_momentum]
    by_cases hlen : (c :: cs).length < N + 1
    · simp only [hlen, if_true]
      have hnle : ¬ N + 1 ≤ (c :: cs).length := by omega
      simp only [hnle, if_false]
      by_cases hcs : (c :: cs).length - 1 = 0
      · have hcs0 : cs = [] := by
          cases cs with
          | nil => rfl
          | cons d ds => simp at hcs
        subst hcs0
        simp [sub_self, zero_div]
      · simp only [hcs, if_false]
        have hidx : (c :: cs).length - 1 - ((c :: cs).length - 1) = 0 := by omega
        rw [hidx]
        by_cases hstart : (c :: cs).getD 0 0 = 0
        · rw [if_neg (fun hc => hc hstart), hstart, div_zero]
        · rw [if_pos hstart]
    · simp only [hlen, if_false]
      have hle : N + 1 ≤ (c :: cs).length := by omega
      simp only [hle, if_true]
      by_cases hN : N = 0
      · subst hN
        simp [sub_self, zero_div]
      · simp only [hN, if_false]
        by_cases hstart : (c :: cs).getD ((c :: cs).length - 1 - N) 0 = 0
        · rw [if_neg (fun hc => hc hstart), hstart, div_zero]
        · rw [if_pos hstart]

/-- C9: `compute_intraday_features` returns the all-zero feature record for
an empty close series (and, being total, never raises), and each momentum
feature is the percent change against the baseline the specification
describes — the bar `N+1` steps back when available, else the earliest
bar. -/
theorem compute_intraday_features_correct :
    compute_intraday_features [] =
        { momentum_15 := 0, momentum_60 := 0, volatility_sq := 0 } ∧
      ∀ closes : List ℚ,
        (compute_intraday_features closes).momentum_15 = spec_momentum closes 15 ∧
          (compute_intraday_features closes).momentum_60 = spec_momentum closes 60 := by
  refine ⟨rfl, ?_⟩
  intro closes
  cases closes with
  | nil => exact ⟨rfl, rfl⟩
  | cons c cs =>
    constructor
    · simp only [compute_intraday_features, List.isEmpty_cons, if_false]
      exact pct_change_eq_spec (c :: cs) 15
    · simp only [compute_intraday_features, List.isEmpty_cons, if_false]
      exact pct_change_eq_spec (c :: cs) 60

end TradingAI
